import Mathlib

/-!
Verification of the core of the cgptoolbox repository: the named-view layer
(`Recarraylink`), the scoped override machinery (`Namedcvodeint.autorestore`,
`Namedcvodeint.clamp`, `Cellmlmodel.dynclamp`) and the file-based job-lease
coordinator (`GPutils.find_jobID` / `GPutils.end_jobID`).

The embedding is shallow.  Numeric values moved between buffers are modelled
by `Val := Int`: every claim under study is about data movement (copying,
restoring, zeroing), never about floating-point arithmetic, so an opaque
value type with decidable equality is faithful; `Int` keeps everything
executable.  Numpy buffers (NVector contents, snapshot arrays, record
arrays) are `List Val`; a record dtype is its ordered list of field names,
field number `i` living at flat position `i` (all dtypes in the repository
are sequences of scalar float64 fields).  Python strings handled by the job
coordinator are `List Char`, so that Python's `in`, `split` and `int()` can
be mirrored exactly and remain kernel-computable.

The file is organised as one block of definitions (translated from the
Python sources, file and line references in the doc comments) followed by
one block of theorems.
-/

namespace Cgp

/-- Scalar values stored in state and parameter buffers.  Floats are
modelled as opaque bit patterns with decidable equality. -/
abbrev Val := Int

/-- Python `list.index` / numpy record-field lookup: position of the first
occurrence of `a` in `names`, `none` when absent (Python raises
`ValueError`). -/
def pyIndex (names : List String) (a : String) : Option Nat :=
  match names with
  | [] => none
  | b :: bs => if b = a then some 0 else (pyIndex bs a).map (· + 1)

/-! ## Recarraylink (namedcvodeint.py, class `Recarraylink`)

`Recarraylink(x, dtype)` keeps a reference `_x` to the live array-like
object (the solver-owned NVector), a private ndarray snapshot `_xa`, and a
record view `_xr` sharing memory with `_xa`.  We store `x` (the live
buffer's contents), `xa` (the snapshot's contents; `_xr` aliases it, so a
field write into `_xr` is a positional write into `xa`) and the ordered
field names of the dtype. -/
structure Recarraylink where
  x : List Val
  xa : List Val
  names : List String
deriving DecidableEq, Repr

/-- Constructor `Recarraylink(x, dtype)`: `_xa = np.array(x)` (a fresh copy
of the live buffer), `_xr = _xa.view(dtype)`. -/
def Recarraylink.mk0 (x : List Val) (names : List String) : Recarraylink :=
  ⟨x, x, names⟩

/-- `Recarraylink.__setattr__`: refresh the snapshot from the live buffer
(`self._xa[:] = self._x`), set the field in the record view
(`self._xr[attr] = val`), copy the snapshot back (`self._x[:] = self._xa`).
A name outside the layout raises `ValueError` at the `_xr[attr]` step and
falls through to plain attribute assignment (`object.__setattr__`), which
touches neither buffer; the snapshot refresh has already happened. -/
def ralSet (r : Recarraylink) (attr : String) (v : Val) : Recarraylink :=
  let xa1 := r.x
  match pyIndex r.names attr with
  | some i => { r with xa := xa1.set i v, x := xa1.set i v }
  | none => { r with xa := xa1 }

/-- `Recarraylink.__getattr__`: refresh the snapshot from the live buffer
(`self._xa[:] = self._x`), then read the field through the record view
(`self._xr[attr]`).  Returns the (possibly updated) link and the value;
`none` models the pass-through/`AttributeError` path for names outside the
layout. -/
def ralGet (r : Recarraylink) (attr : String) : Recarraylink × Option Val :=
  let xa1 := r.x
  match pyIndex r.names attr with
  | some i => ({ r with xa := xa1 }, xa1[i]?)
  | none => ({ r with xa := xa1 }, none)

/-- An out-of-band mutation of the live buffer (e.g. the solver writing
into the NVector between named accesses).  The solver only ever mutates
the buffer's contents in place (`buffer[:] = values`), never its identity,
so the mutation is a new contents list for the same link. -/
def externMutate (r : Recarraylink) (b : List Val) : Recarraylink :=
  { r with x := b }

/-! ## Namedcvodeint and autorestore (namedcvodeint.py, lines 78-209)

`Namedcvodeint.__init__` stores the solver state NVector `self.y`, a
`Recarraylink` `self.yr` over it, and the parameter record array
`self.pr`.  We collapse the `y`/`yr` aliasing by storing only the link:
`m.yr.x` is the live NVector contents.  `rootActive` models the
solver-internal rootfinding configuration; `RootInit(0)` (called on every
`autorestore` exit) disables rootfinding.  `RootInit` itself lives in the
`cvodeint.core` solver wrapper, outside the sources at hand; it is
Modelled from the spec: "reset solver-internal root-finding configuration
to its default (no user-configurable root functions active)". -/
structure NamedModel where
  yr : Recarraylink
  pr : List Val
  pnames : List String
  rootActive : Bool
deriving DecidableEq, Repr

/-- The live state NVector contents, `self.y`. -/
def NamedModel.y (m : NamedModel) : List Val := m.yr.x

/-- The state field names, `self.dtype.y.names`. -/
def NamedModel.ynames (m : NamedModel) : List String := m.yr.names

/-- Python exceptions raised by the override machinery.  The two
`TypeError` constructors carry the offending key and stand for the two
distinct messages in `autorestore`: `typeErrorKeyNotFound k` is
"Key k not in parameter or rate vectors" (line 201) and
`typeErrorKeyAmbiguous k` is
"Key k occurs in both parameter and state vectors" (line 203).
`userExc` stands for an arbitrary exception raised by the body of the
`with` block. -/
inductive PyErr where
  | typeErrorKeyNotFound (k : String)
  | typeErrorKeyAmbiguous (k : String)
  | valueError
  | userExc (n : Nat)
deriving DecidableEq, Repr

/-- A fragment of Python's value universe, needed to embed the membership
test on line 200 of namedcvodeint.py exactly as written:
`k not in [self.dtype.y.names + self.dtype.p.names]` compares the string
`k` against a list whose single element is a tuple of strings. -/
inductive PyV where
  | s (v : String)
  | tup (v : List String)
deriving DecidableEq, Repr

/-- The test on line 200, literally: membership of the string `k` in the
singleton Python list holding the concatenated name tuple. -/
def line200Test (k : String) (ynames pnames : List String) : Bool :=
  !(([PyV.tup (ynames ++ pnames)] : List PyV).contains (PyV.s k))

/-- The `**kwargs` loop of `autorestore` (lines 192-203): each key is
applied to the parameter vector if it names only a parameter, to the state
vector (through the `Recarraylink` write path) if it names only a state
variable; otherwise a `TypeError` is raised and the state reached so far is
returned. -/
def applyKwargs (m : NamedModel) : List (String × Val) → Option PyErr × NamedModel
  | [] => (none, m)
  | (k, v) :: rest =>
    if k ∈ m.pnames ∧ k ∉ m.yr.names then
      applyKwargs { m with pr := m.pr.set ((pyIndex m.pnames k).getD 0) v } rest
    else if k ∈ m.yr.names ∧ k ∉ m.pnames then
      applyKwargs { m with yr := ralSet m.yr k v } rest
    else if line200Test k m.yr.names m.pnames then
      (some (PyErr.typeErrorKeyNotFound k), m)
    else
      (some (PyErr.typeErrorKeyAmbiguous k), m)

/-- The pre-yield phase of `autorestore` (lines 183-203): apply `_p`, then
`_y`, then the keyword overrides.  Bulk assignment `self.pr[:] = _p` (and
likewise for `_y`, after its scalar-coercion fallbacks) requires matching
length; a genuine shape mismatch raises `ValueError`.  An error return
carries the model state reached when the exception was raised. -/
def applyOverrides (m : NamedModel) (p0 y0 : Option (List Val))
    (kwargs : List (String × Val)) : Option PyErr × NamedModel :=
  match p0 with
  | some p =>
    if p.length = m.pr.length then
      applyOverridesY { m with pr := p } y0 kwargs
    else (some PyErr.valueError, m)
  | none => applyOverridesY m y0 kwargs
where
  applyOverridesY (m : NamedModel) (y0 : Option (List Val))
      (kwargs : List (String × Val)) : Option PyErr × NamedModel :=
    match y0 with
    | some yv =>
      if yv.length = m.yr.x.length then
        applyKwargs { m with yr := { m.yr with x := yv } } kwargs
      else (some PyErr.valueError, m)
    | none => applyKwargs m kwargs

/-- `Namedcvodeint.autorestore` (lines 182-209) as a whole-scope function.
The body receives the model after the overrides are applied and returns the
model state when it finished together with `none` (normal return) or
`some e` (it raised `e`).  If the overrides themselves raise, the `with`
block is never entered and no restoration happens (the `try`/`finally`
wraps only the `yield`).  Otherwise the `finally` clause runs
unconditionally: `RootInit(0)` disables rootfinding and
`self.y[:], self.pr[:] = oldy, oldpar` restores the entry snapshots taken
on line 182; a body exception is then re-raised unchanged. -/
def autorestore (m : NamedModel) (p0 y0 : Option (List Val))
    (kwargs : List (String × Val))
    (body : NamedModel → Option PyErr × NamedModel) :
    Option PyErr × NamedModel :=
  let oldy := m.y
  let oldpar := m.pr
  match applyOverrides m p0 y0 kwargs with
  | (some e, m1) => (some e, m1)
  | (none, m1) =>
    let r := body m1
    (r.1, { r.2 with
              rootActive := false,
              yr := { r.2.yr with x := oldy },
              pr := oldpar })

/-! ## clamp and dynclamp (namedcvodeint.py lines 223-300,
cellmlmodel.py lines 452-555) -/

/-- Numpy fancy assignment `y[idx] = vals`, applied pairwise in order. -/
def npAssign : List Val → List Nat → List Val → List Val
  | y, i :: is, v :: vs => npAssign (y.set i v) is vs
  | y, _, _ => y

/-- Numpy broadcast assignment `y[idx] = c`. -/
def npAssignC : List Val → List Nat → Val → List Val
  | y, [], _ => y
  | y, i :: is, c => npAssignC (y.set i c) is c

/-- The wrapped right-hand side built by `clamp` (lines 261-278): copy the
solver-supplied working state (`y_ = np.copy(y)`), overwrite the clamped
positions (`y_[i] = v`), invoke the original right-hand side on the
modified copy (`self.f_ode(t, y_, ydot, f_data)`), zero the derivative
entries at the clamped positions (`ydot[i] = 0`) and return 0.  The
original right-hand side is abstracted as a function from time and state
to the derivative vector it writes into `ydot`.

The closure reads the enclosing function's local `v` at call time, and
the initialization loop on line 282 (`for k, v in kwargs.items()`) has
rebound that local to the value of the last keyword by the time the
derived model is constructed on line 289 — before any possible
invocation.  So `y_[i] = v` is a numpy broadcast of that single value
`vLast` to every clamped position, not a pairwise assignment of each
field's own value.  (`i` is never rebound and keeps the index array from
line 259; for an empty keyword dict `i` is empty and the assignment is a
no-op, so `vLast` is irrelevant then.) -/
def clampRHS (f : Val → List Val → List Val) (i : List Nat) (vLast : Val)
    (t : Val) (y : List Val) : List Val × Int :=
  let y2 := npAssignC y i vLast
  let ydot := f t y2
  (npAssignC ydot i 0, 0)

/-- Line 259: `i = np.array([self.dtype.y.names.index(k) for k in kwargs])`;
the comprehension evaluates left to right and `list.index` raises
`ValueError` for a name not in the state field list, modelled by `none`. -/
def clampIdx (ynames : List String) :
    List (String × Val) → Option (List Nat)
  | [] => some []
  | a :: rest =>
    match pyIndex ynames a.1 with
    | none => none
    | some j => (clampIdx ynames rest).map (j :: ·)

/-- Lines 281-283: the derived model's initial state — a copy of the
origin's live state buffer with each clamped field set to its fixed
value. -/
def clampInitY (y : List Val) (ynames : List String)
    (args : List (String × Val)) : List Val :=
  args.foldl (fun acc a => acc.set ((pyIndex ynames a.1).getD 0) a.2) y

/-- The state shared between origin and derived model while a `clamp` or
`dynclamp` scope is open: the origin's state link `oyr` (`self.yr`), the
derived model's state link `dyr` (`clamped.yr`, over its own fresh
NVector), and the parameter vector `pr`, which the derived model
**shares by reference** with the origin (`self.pr` is passed unchanged to
the derived `Namedcvodeint`), so it is stored once. -/
structure ClampWorld where
  oyr : Recarraylink
  dyr : Recarraylink
  pr : List Val
  pnames : List String
deriving DecidableEq, Repr

/-- Entering `Namedcvodeint.clamp` (lines 258-293): compute the clamp
indices (raising for an unknown field name), build the derived model's
initial state, construct the derived model over its own NVector but the
shared parameter vector, then zero `stim_amplitude` in the shared
parameters when that field exists (lines 291-293). -/
def clampEnter (m : NamedModel) (args : List (String × Val)) :
    Option ClampWorld :=
  match clampIdx m.yr.names args with
  | none => none
  | some _ =>
    let y0 := clampInitY m.yr.x m.yr.names args
    let pr1 := if "stim_amplitude" ∈ m.pnames then
        m.pr.set ((pyIndex m.pnames "stim_amplitude").getD 0) 0
      else m.pr
    some { oyr := m.yr, dyr := Recarraylink.mk0 y0 m.yr.names,
           pr := pr1, pnames := m.pnames }

/-- The `finally` block shared verbatim by `clamp` (lines 297-300) and
`dynclamp` (cellmlmodel.py lines 551-555):
`for k in clamped.dtype.y.names: if k in self.dtype.y.names:
setattr(self.yr, k, getattr(clamped.yr, k))`.  The recursion follows the
loop; `src` is the variant's link, `dst` the origin's. -/
def copyBackAux : List String → Recarraylink → Recarraylink →
    Recarraylink × Recarraylink
  | [], src, dst => (src, dst)
  | k :: ks, src, dst =>
    if k ∈ dst.names then
      let g := ralGet src k
      copyBackAux ks g.1 (ralSet dst k (g.2.getD 0))
    else copyBackAux ks src dst

/-- The copy-back step on scope exit: iterate over the variant's state
field names. -/
def copyBack (src dst : Recarraylink) : Recarraylink × Recarraylink :=
  copyBackAux src.names src dst

/-- A whole `with self.clamp(...) as clamped:` scope: enter, run the body
on the shared world, then run the `finally` copy-back and reassemble the
origin model (its parameter vector is whatever the shared vector now
holds). -/
def clampScope (m : NamedModel) (args : List (String × Val))
    (body : ClampWorld → ClampWorld) : Option NamedModel :=
  (clampEnter m args).map fun w =>
    let w1 := body w
    let cb := copyBack w1.dyr w1.oyr
    { yr := cb.2, pr := w1.pr, pnames := w1.pnames,
      rootActive := m.rootActive }

/-- Entering `Cellmlmodel.dynclamp` (cellmlmodel.py lines 522-548): look up
the voltage and ion field indices (raising for unknown names), copy the
origin's state unchanged into the derived model, share the parameter
vector, and zero `stim_amplitude` in the shared parameters when that field
exists (lines 544-548).  The feedback-current arithmetic of the new
right-hand side is floating-point and is not needed by any claim, so it is
not modelled. -/
def dynclampEnter (m : NamedModel) (V ion : String) : Option ClampWorld :=
  match pyIndex m.yr.names V, pyIndex m.yr.names ion with
  | some _, some _ =>
    let pr1 := if "stim_amplitude" ∈ m.pnames then
        m.pr.set ((pyIndex m.pnames "stim_amplitude").getD 0) 0
      else m.pr
    some { oyr := m.yr, dyr := Recarraylink.mk0 m.yr.x m.yr.names,
           pr := pr1, pnames := m.pnames }
  | _, _ => none

/-- A whole `with self.dynclamp(...) as clamped:` scope; the `finally`
block is the same copy-back loop as for `clamp`. -/
def dynclampScope (m : NamedModel) (V ion : String)
    (body : ClampWorld → ClampWorld) : Option NamedModel :=
  (dynclampEnter m V ion).map fun w =>
    let w1 := body w
    let cb := copyBack w1.dyr w1.oyr
    { yr := cb.2, pr := w1.pr, pnames := w1.pnames,
      rootActive := m.rootActive }

/-! ## Job lease coordinator (GPutils.py)

Python strings are `List Char`.  The scan directory `d['SimID']` is a list
of directory entries (name and content); the jobfile counter is stored
separately as the parsed integer it always holds (the coordinator itself
creates it with `'0'` and only ever writes `str(jobID+1)`).  Paths are
modelled as names inside the single scan directory, matching the
configuration the module's doctest uses (`jobfile='./job'`, `SimID='.'`,
`errorfile='./error'`).  The advisory lock (`poormanslock.Lock`) only
serializes the critical section across workers; the sequential semantics
inside the lock is what is modelled. -/

/-- Python substring test `needle in hay`: helper, `needle` starts `hay`. -/
def listIsPre : List Char → List Char → Bool
  | [], _ => true
  | _ :: _, [] => false
  | a :: as, b :: bs => a == b && listIsPre as bs

/-- Python substring containment `needle in hay`. -/
def pyIn (needle hay : List Char) : Bool :=
  match hay with
  | [] => needle.isEmpty
  | _ :: t => listIsPre needle hay || pyIn needle t

/-- Python `s.split(c)` for a single-character separator. -/
def pySplit (c : Char) : List Char → List (List Char)
  | [] => [[]]
  | a :: as =>
    if a == c then [] :: pySplit c as
    else (a :: (pySplit c as).headD []) :: (pySplit c as).tail

/-- Value of a decimal digit character. -/
def digitVal (ch : Char) : Option Nat :=
  if '0' ≤ ch ∧ ch ≤ '9' then some (ch.toNat - 48) else none

/-- One step of Python `int()` over a digit string. -/
def digStep (acc : Option Nat) (ch : Char) : Option Nat :=
  acc.bind fun n => (digitVal ch).map fun d => n * 10 + d

/-- Python `int(s)` restricted to the nonnegative decimal literals that
occur in marker filenames; anything else raises `ValueError` (`none`). -/
def pyIntNat (s : List Char) : Option Nat :=
  if s = [] then none else s.foldl digStep (some 0)

/-- Decimal digit character for `d < 10`. -/
def digitChar (d : Nat) : Char := Char.ofNat (48 + d)

/-- Decimal representation, fuelled to stay structurally recursive; the
fuel `n + 1` always suffices. -/
def natCharsAux : Nat → Nat → List Char
  | 0, _ => []
  | fuel + 1, n =>
    if n < 10 then [digitChar n]
    else natCharsAux fuel (n / 10) ++ [digitChar (n % 10)]

/-- Python `str(n)` for a nonnegative integer. -/
def natChars (n : Nat) : List Char := natCharsAux (n + 1) n

/-- One entry of the scan directory: filename and file content (content
matters only for the pickled error payloads). -/
structure DirEntry where
  name : List Char
  content : List Char
deriving DecidableEq, Repr

/-- The configuration dict `d` consumed by the coordinator. -/
structure JobConf where
  Nsims : Nat
  jobfile : List Char
  errorfile : List Char
deriving DecidableEq, Repr

/-- Shared filesystem state: the jobfile counter (`none` = file absent)
and the scan directory entries. -/
structure JobFS where
  counter : Option Nat
  files : List DirEntry
deriving DecidableEq, Repr

/-- `"%s_timeout_%s" % (d['jobfile'], jobID)`. -/
def markerName (d : JobConf) (i : Nat) : List Char :=
  d.jobfile ++ "_timeout_".toList ++ natChars i

/-- `"%s_%s.pickle" % (d['errorfile'], jobID)`. -/
def errName (d : JobConf) (i : Nat) : List Char :=
  d.errorfile ++ "_".toList ++ natChars i ++ ".pickle".toList

/-- `"%s_redone_%s.pickle" % (d['jobfile'], jobID)`. -/
def redoneName (d : JobConf) (i : Nat) : List Char :=
  d.jobfile ++ "_redone_".toList ++ natChars i ++ ".pickle".toList

/-- `os.path.exists` within the scan directory. -/
def hasFile (fs : JobFS) (name : List Char) : Bool :=
  fs.files.any (fun f => f.name == name)

/-- `GPutils.touch`: create an empty file unless it exists (an existing
file only has its times updated; content is untouched). -/
def touch (fs : JobFS) (name : List Char) : JobFS :=
  if hasFile fs name then fs
  else { fs with files := fs.files ++ [⟨name, []⟩] }

/-- `shutil.move(src, dst)`: fails (`none`) when the source does not
exist; otherwise removes the source entry and writes its content under the
destination name, overwriting any existing destination. -/
def pyMove (fs : JobFS) (src dst : List Char) : Option JobFS :=
  match fs.files.find? (fun f => f.name == src) with
  | none => none
  | some e =>
    some { fs with files :=
      (fs.files.filter (fun f => !(f.name == src || f.name == dst)))
        ++ [⟨dst, e.content⟩] }

/-- The substring the error-redo scan looks for: `'error' in file`. -/
def errPat : List Char := "error".toList

/-- The substring the timeout-redo scan looks for:
`'job_timeout' in file`. -/
def jtPat : List Char := "job_timeout".toList

/-- `int(file.split('_')[-1].split('.')[0])`, the id extraction used by
both redo scans. -/
def parseJobID (name : List Char) : Option Nat :=
  pyIntNat ((pySplit '.' ((pySplit '_' name).getLastD [])).headD [])

/-- Lines 117-120: first file of the shuffled listing whose name contains
`'error'`. -/
def errScan (shuffled : List DirEntry) : Option DirEntry :=
  shuffled.find? (fun f => pyIn errPat f.name)

/-- Lines 128-130: walk the whole shuffled listing, re-parsing `jobID`
from every file whose name contains `'job_timeout'` (the last match
wins); a parse failure raises (`none`). -/
def timeoutScan : List DirEntry → Nat → Option Nat
  | [], j => some j
  | f :: rest, j =>
    if pyIn jtPat f.name then
      match parseJobID f.name with
      | none => none
      | some k => timeoutScan rest k
    else timeoutScan rest j

/-- `GPutils.find_jobID` (lines 83-138).  `shuffled` is the
`np.random.shuffle`d listing of the scan directory, a permutation of
`fs0.files`; it is consulted only on the redo path.  Returns `none` when
the Python code would raise (unparsable id, missing move source), else the
returned job id and the filesystem state after the call.  Steps: create
the jobfile holding `'0'` if absent; read the counter; below `Nsims`,
touch the id's timeout marker, persist the incremented counter and return
the id; otherwise scan for an error file, then (if that yields no id below
`Nsims`) for leftover timeout markers, and finally fall back to the
sentinel `d['Nsims']`. -/
def find_jobID (d : JobConf) (fs0 : JobFS) (shuffled : List DirEntry) :
    Option (Nat × JobFS) :=
  let fs := if fs0.counter.isNone then { fs0 with counter := some 0 } else fs0
  let jobID := fs.counter.getD 0
  if jobID < d.Nsims then
    let fs1 := touch fs (markerName d jobID)
    some (jobID, { fs1 with counter := some (jobID + 1) })
  else
    let step1 : Option Nat :=
      match errScan shuffled with
      | some f => parseJobID f.name
      | none => some jobID
    match step1 with
    | none => none
    | some j1 =>
      if j1 < d.Nsims then
        let fs1 := touch fs (markerName d j1)
        (pyMove fs1 (errName d j1) (redoneName d j1)).map fun fs2 => (j1, fs2)
      else
        match timeoutScan shuffled j1 with
        | none => none
        | some j2 =>
          if j2 < d.Nsims then some (j2, touch fs (markerName d j2))
          else some (d.Nsims, fs)

/-- `GPutils.end_jobID` (lines 140-144): delete the id's timeout marker;
`os.remove` raises when it is absent. -/
def end_jobID (d : JobConf) (fs : JobFS) (i : Nat) : Option JobFS :=
  if hasFile fs (markerName d i) then
    some { fs with files :=
      fs.files.filter (fun f => !(f.name == markerName d i)) }
  else none

/-- `n` consecutive `find_jobID` calls, each passed the current directory
listing unshuffled (the identity permutation is one legal shuffle);
collects the returned ids. -/
def acquireRun (d : JobConf) : Nat → JobFS → Option (List Nat × JobFS)
  | 0, fs => some ([], fs)
  | n + 1, fs =>
    match find_jobID d fs fs.files with
    | none => none
    | some (j, fs1) =>
      (acquireRun d n fs1).map fun r => (j :: r.1, r.2)

/-! ## Concrete fixtures used by witnesses and counterexamples -/

/-- A two-field link for the Recarraylink witnesses. -/
def exLink : Recarraylink := ⟨[1, 2], [5, 6], ["x", "y"]⟩

/-- A van-der-Pol-like model (state fields `x`, `y`; parameter `eps`). -/
def exModel : NamedModel := ⟨⟨[1, 2], [1, 2], ["x", "y"]⟩, [3], ["eps"], true⟩

/-- A body that trashes state, parameters and rootfinding, then raises. -/
def exBody : NamedModel → Option PyErr × NamedModel :=
  fun _ => (some (PyErr.userExc 3), ⟨⟨[9, 9], [9, 9], ["x", "y"]⟩, [9], ["eps"], true⟩)

/-- A model whose key `x` names both a state field and a parameter. -/
def exModelBoth : NamedModel := ⟨⟨[1, 2], [1, 2], ["x", "y"]⟩, [2], ["x"], false⟩

/-- The body that does nothing and returns normally. -/
def idBody : NamedModel → Option PyErr × NamedModel := fun mm => (none, mm)

/-- A model with a `stim_amplitude` parameter, for the C10 witness. -/
def exStimModel : NamedModel :=
  ⟨⟨[1, 2], [1, 2], ["V", "K"]⟩, [3, 4], ["eps", "stim_amplitude"], false⟩

/-- A probe right-hand side that reports the working state it was given:
its third derivative entry encodes the first two state values, so the
working copy built by the clamped wrapper can be observed through the
wrapper's output. -/
def probeRHS : Val → List Val → List Val :=
  fun _ ys => [0, 0, ys.getD 0 0 * 10 + ys.getD 1 0]

/-- Variant and origin links with partially overlapping layouts, for the
C8 witness. -/
def exSrcLink : Recarraylink := ⟨[1, 2], [1, 2], ["a", "b"]⟩

/-- Origin link sharing only field `b` with `exSrcLink`. -/
def exDstLink : Recarraylink := ⟨[7, 8], [7, 8], ["b", "c"]⟩

/-- The world produced by `clampEnter exStimModel [("V", 0)]`. -/
def exStimClampW : ClampWorld :=
  ⟨⟨[1, 2], [1, 2], ["V", "K"]⟩, ⟨[0, 2], [0, 2], ["V", "K"]⟩,
    [3, 0], ["eps", "stim_amplitude"]⟩

/-- The world produced by `dynclampEnter exStimModel "V" "K"`. -/
def exStimDynW : ClampWorld :=
  ⟨⟨[1, 2], [1, 2], ["V", "K"]⟩, ⟨[1, 2], [1, 2], ["V", "K"]⟩,
    [3, 0], ["eps", "stim_amplitude"]⟩

/-- The doctest configuration with two replicates. -/
def exJobConf : JobConf := ⟨2, "job".toList, "error".toList⟩

/-- The doctest configuration with three replicates. -/
def exJobConf3 : JobConf := ⟨3, "job".toList, "error".toList⟩

/-- All three ids issued, none released: three live timeout markers. -/
def exC6FS : JobFS :=
  ⟨some 3, [⟨markerName exJobConf3 0, []⟩, ⟨markerName exJobConf3 1, []⟩,
    ⟨markerName exJobConf3 2, []⟩]⟩

/-- Both ids issued; id 0 errored (artifact with payload), id 1 timed
out. -/
def exC5FS : JobFS :=
  ⟨some 2, [⟨errName exJobConf 0, "p".toList⟩, ⟨markerName exJobConf 1, []⟩]⟩

/-- A configuration whose error artifacts are named from a stem that does
not contain the literal `error`. -/
def cxErrConf : JobConf := ⟨2, "job".toList, "failures".toList⟩

/-- Error artifact for id 0 (named from the `failures` stem) and timeout
marker for id 1, after both ids were issued. -/
def cxErrFS : JobFS :=
  ⟨some 2, [⟨errName cxErrConf 0, "p".toList⟩, ⟨markerName cxErrConf 1, []⟩]⟩

/-- A configuration whose jobfile is not named `job`, so its timeout
markers do not contain the literal `job_timeout`. -/
def cxTimConf : JobConf := ⟨3, "counter".toList, "error".toList⟩

/-- All three ids issued and never released under `cxTimConf`. -/
def cxTimFS : JobFS :=
  ⟨some 3, [⟨markerName cxTimConf 0, []⟩, ⟨markerName cxTimConf 1, []⟩,
    ⟨markerName cxTimConf 2, []⟩]⟩

/-! ## Theorems -/

theorem pyIndex_mem {names : List String} {a : String} :
    a ∈ names → (pyIndex names a).isSome := by
  induction names with
  | nil => intro h; cases h
  | cons b bs ih =>
    intro h
    by_cases hb : b = a
    · simp [pyIndex, hb]
    · rcases List.mem_cons.mp h with h | h
      · exact absurd h.symm hb
      · simpa [pyIndex, hb] using ih h

theorem pyIndex_eq_none {names : List String} {a : String} :
    a ∉ names → pyIndex names a = none := by
  induction names with
  | nil => intro _; rfl
  | cons b bs ih =>
    intro h
    have hb : b ≠ a := fun hba => h (hba ▸ List.mem_cons_self b bs)
    have ha : a ∉ bs := fun hm => h (List.mem_cons_of_mem b hm)
    simp [pyIndex, hb, ih ha]

theorem pyIndex_lt_length {names : List String} {a : String} {i : Nat}
    (h : pyIndex names a = some i) : i < names.length := by
  induction names generalizing i with
  | nil => simp [pyIndex] at h
  | cons b bs ih =>
    by_cases hb : b = a
    · simp [pyIndex, hb] at h
      simp only [List.length_cons]
      omega
    · simp [pyIndex, hb] at h
      rcases h with ⟨j, hj, rfl⟩
      have := ih hj
      simp only [List.length_cons]
      omega

theorem pyIndex_getElem? {names : List String} {a : String} {i : Nat}
    (h : pyIndex names a = some i) : names[i]? = some a := by
  induction names generalizing i with
  | nil => simp [pyIndex] at h
  | cons b bs ih =>
    by_cases hb : b = a
    · simp [pyIndex, hb] at h
      subst h
      simp [hb]
    · simp [pyIndex, hb] at h
      rcases h with ⟨j, hj, rfl⟩
      simpa using ih hj

theorem pyIndex_inj {names : List String} {a b : String} {i j : Nat}
    (ha : pyIndex names a = some i) (hb : pyIndex names b = some j)
    (hne : a ≠ b) : i ≠ j := by
  intro hij
  subst hij
  have h1 := pyIndex_getElem? ha
  have h2 := pyIndex_getElem? hb
  rw [h1] at h2
  exact hne (Option.some.inj h2)

theorem ralSet_x_eq {r : Recarraylink} {attr : String} {i : Nat} (v : Val)
    (h : pyIndex r.names attr = some i) :
    (ralSet r attr v).x = r.x.set i v := by
  simp [ralSet, h]

theorem ralSet_names (r : Recarraylink) (attr : String) (v : Val) :
    (ralSet r attr v).names = r.names := by
  unfold ralSet
  cases pyIndex r.names attr <;> rfl

theorem ralSet_length {r : Recarraylink} {attr : String} {v : Val} :
    (ralSet r attr v).x.length = r.x.length := by
  unfold ralSet
  cases pyIndex r.names attr <;> simp

theorem ralGet_fst_x (r : Recarraylink) (attr : String) :
    (ralGet r attr).1.x = r.x := by
  unfold ralGet
  cases pyIndex r.names attr <;> rfl

theorem ralGet_fst_names (r : Recarraylink) (attr : String) :
    (ralGet r attr).1.names = r.names := by
  unfold ralGet
  cases pyIndex r.names attr <;> rfl

theorem ralGet_snd {r : Recarraylink} {attr : String} {i : Nat}
    (h : pyIndex r.names attr = some i) :
    (ralGet r attr).2 = r.x[i]? := by
  simp [ralGet, h]

/-- Claim C3: a named-field write first re-synchronizes the internal
snapshot from the live buffer, then sets the field, then copies the whole
snapshot back into the live buffer; consequently a write never discards an
external mutation of the buffer made since the last access (all off-field
positions of the resulting live buffer are the externally mutated values
`b`, not the stale snapshot), and a named-field read performed after a
direct mutation of the flat buffer returns the mutated value without any
intervening named write. -/
theorem recarraylink_write_keeps_extern_mutation
    (r : Recarraylink) (b : List Val) (f : String) (v : Val) (i : Nat)
    (hi : pyIndex r.names f = some i) (hib : i < b.length) :
    ((ralSet (externMutate r b) f v).x = b.set i v) ∧
    (∀ j, j ≠ i → (ralSet (externMutate r b) f v).x[j]? = b[j]?) ∧
    ((ralSet (externMutate r b) f v).x[i]? = some v) ∧
    ((ralGet (externMutate r b) f).2 = b[i]?) := by
  have hx : (ralSet (externMutate r b) f v).x = b.set i v := by
    simp [ralSet, externMutate, hi]
  refine ⟨hx, ?_, ?_, ?_⟩
  · intro j hj
    rw [hx]
    exact List.getElem?_set_ne (fun h => hj h.symm)
  · rw [hx]
    exact List.getElem?_set_self hib
  · simp [ralGet, externMutate, hi]

/-- Witness for C3 at a concrete input: live buffer mutated externally to
`[10, 20]`, then field `y` (position 1) written to 7. -/
theorem recarraylink_write_keeps_extern_mutation_witness :
    (pyIndex exLink.names "y" = some 1) ∧ (1 < 2) ∧
    (((ralSet (externMutate exLink [10, 20]) "y" 7).x = [10, 20].set 1 7) ∧
      (∀ j, j ≠ 1 →
        (ralSet (externMutate exLink [10, 20]) "y" 7).x[j]?
          = [(10 : Val), 20][j]?) ∧
      ((ralSet (externMutate exLink [10, 20]) "y" 7).x[1]? = some 7) ∧
      ((ralGet (externMutate exLink [10, 20]) "y").2 = [(10 : Val), 20][1]?)) :=
  ⟨by decide, by decide,
    recarraylink_write_keeps_extern_mutation exLink [10, 20] "y" 7 1
      (by decide) (by decide)⟩

/-- Claim C9: for valid field names, `write(f, v)` followed by `read(f)`
returns `v`, and the value of every other field in the layout is unchanged
by the write. -/
theorem recarraylink_write_read_roundtrip
    (r : Recarraylink) (f g : String) (v : Val) (i j : Nat)
    (hf : pyIndex r.names f = some i) (hg : pyIndex r.names g = some j)
    (hne : g ≠ f) (hi : i < r.x.length) :
    ((ralGet (ralSet r f v) f).2 = some v) ∧
    ((ralGet (ralSet r f v) g).2 = (ralGet r g).2) := by
  have hn : (ralSet r f v).names = r.names := ralSet_names r f v
  have hx : (ralSet r f v).x = r.x.set i v := ralSet_x_eq v hf
  have hf' : pyIndex (ralSet r f v).names f = some i := by rw [hn]; exact hf
  have hg' : pyIndex (ralSet r f v).names g = some j := by rw [hn]; exact hg
  have hji : j ≠ i := pyIndex_inj hg hf hne
  constructor
  · rw [ralGet_snd hf', hx]
    exact List.getElem?_set_self hi
  · rw [ralGet_snd hg', ralGet_snd hg, hx]
    exact List.getElem?_set_ne (fun h => hji h.symm)

/-- Witness for C9 at a concrete input: write field `x` of a two-field
layout, read both fields back. -/
theorem recarraylink_write_read_roundtrip_witness :
    (pyIndex exLink.names "x" = some 0) ∧ (pyIndex exLink.names "y" = some 1) ∧
    ("y" ≠ "x") ∧ (0 < 2) ∧
    (((ralGet (ralSet exLink "x" 9) "x").2 = some 9) ∧
      ((ralGet (ralSet exLink "x" 9) "y").2 = (ralGet exLink "y").2)) :=
  ⟨by decide, by decide, by decide, by decide,
    recarraylink_write_read_roundtrip exLink "x" "y" 9 0 1
      (by decide) (by decide) (by decide) (by decide)⟩

theorem line200Test_always_true (k : String) (ynames pnames : List String) :
    line200Test k ynames pnames = true := by
  simp [line200Test]

/-- Claim C1: for every model and every override configuration that enters
the `with` block (`_p`, `_y` and named overrides applied without raising),
after the scope exits — whether the body returned normally or raised — the
model's state vector `y` and parameter vector `pr` are bit-for-bit equal to
their values at scope entry, rootfinding is reset via `RootInit(0)`, and an
exception raised in the body propagates unchanged to the caller. -/
theorem autorestore_restores_state_and_params
    (m : NamedModel) (p0 y0 : Option (List Val)) (kwargs : List (String × Val))
    (body : NamedModel → Option PyErr × NamedModel)
    (hok : (applyOverrides m p0 y0 kwargs).1 = none) :
    ((autorestore m p0 y0 kwargs body).2.y = m.y) ∧
    ((autorestore m p0 y0 kwargs body).2.pr = m.pr) ∧
    ((autorestore m p0 y0 kwargs body).2.rootActive = false) ∧
    ((autorestore m p0 y0 kwargs body).1
      = (body (applyOverrides m p0 y0 kwargs).2).1) := by
  have h : applyOverrides m p0 y0 kwargs
      = (none, (applyOverrides m p0 y0 kwargs).2) := by
    rcases hh : applyOverrides m p0 y0 kwargs with ⟨e, m1⟩
    rw [hh] at hok
    simp only at hok
    simp [hok]
  unfold autorestore
  rw [h]
  simp [NamedModel.y]

/-- Witness for C1 at a concrete input: overrides `_p = [4]`,
`_y = [7, 8]`, keyword overrides for state field `x` and parameter `eps`;
the body trashes state, parameters and rootfinding and raises. -/
theorem autorestore_restores_state_and_params_witness :
    ((applyOverrides exModel (some [4]) (some [7, 8])
        [("x", 5), ("eps", 6)]).1 = none) ∧
    (((autorestore exModel (some [4]) (some [7, 8]) [("x", 5), ("eps", 6)]
          exBody).2.y = exModel.y) ∧
      ((autorestore exModel (some [4]) (some [7, 8]) [("x", 5), ("eps", 6)]
          exBody).2.pr = exModel.pr) ∧
      ((autorestore exModel (some [4]) (some [7, 8]) [("x", 5), ("eps", 6)]
          exBody).2.rootActive = false) ∧
      ((autorestore exModel (some [4]) (some [7, 8]) [("x", 5), ("eps", 6)]
          exBody).1
        = (exBody (applyOverrides exModel (some [4]) (some [7, 8])
            [("x", 5), ("eps", 6)]).2).1)) :=
  ⟨by decide,
    autorestore_restores_state_and_params exModel (some [4]) (some [7, 8])
      [("x", 5), ("eps", 6)] exBody (by decide)⟩

/-- Counterexample to claim C2 as stated: with state fields
`["x", "y"]` and parameter fields `["x"]`, the key `x` is present in both
field-name sets, yet `autorestore` raises the generic "Key x not in
parameter or rate vectors" `TypeError` of line 201, not the ambiguity
`TypeError` of line 203: the membership test on line 200 compares the
string against a singleton list holding a tuple and therefore always
succeeds, making the ambiguity branch unreachable. -/
theorem autorestore_ambiguous_key_counterexample :
    ("x" ∈ exModelBoth.pnames) ∧ ("x" ∈ exModelBoth.yr.names) ∧
    ((autorestore exModelBoth none none [("x", 5)] idBody).1
      = some (PyErr.typeErrorKeyNotFound "x")) ∧
    ((autorestore exModelBoth none none [("x", 5)] idBody).1
      ≠ some (PyErr.typeErrorKeyAmbiguous "x")) := by
  refine ⟨by decide, by decide, by decide, by decide⟩

/-- Claim C2 as amended: a named-override key that appears in both the
state and parameter field-name sets, or in neither, raises a `TypeError`
before any field of state or parameters is mutated, provided the offending
key is the first override processed (no `_p`/`_y` given); in both cases it
is the generic "Key ... not in parameter or rate vectors" `TypeError` of
line 201 — the dedicated ambiguity `TypeError` of line 203 is dead code. -/
theorem autorestore_bad_key_raises_typeError
    (m : NamedModel) (k : String) (v : Val) (rest : List (String × Val))
    (body : NamedModel → Option PyErr × NamedModel)
    (h : (k ∈ m.pnames ∧ k ∈ m.yr.names) ∨ (k ∉ m.pnames ∧ k ∉ m.yr.names)) :
    autorestore m none none ((k, v) :: rest) body
      = (some (PyErr.typeErrorKeyNotFound k), m) := by
  have hk : applyKwargs m ((k, v) :: rest)
      = (some (PyErr.typeErrorKeyNotFound k), m) := by
    rcases h with ⟨h1, h2⟩ | ⟨h1, h2⟩ <;>
      simp [applyKwargs, h1, h2, line200Test_always_true]
  unfold autorestore applyOverrides applyOverrides.applyOverridesY
  simp [hk]

/-- Witness for the amended C2 at a concrete input: key `x` present in
both field-name sets; the fault is raised and the model is unmutated. -/
theorem autorestore_bad_key_raises_typeError_witness :
    ((("x" ∈ exModelBoth.pnames) ∧ ("x" ∈ exModelBoth.yr.names)) ∨
      (("x" ∉ exModelBoth.pnames) ∧ ("x" ∉ exModelBoth.yr.names))) ∧
    (autorestore exModelBoth none none [("x", 5)] idBody
      = (some (PyErr.typeErrorKeyNotFound "x"), exModelBoth)) :=
  ⟨Or.inl ⟨by decide, by decide⟩,
    autorestore_bad_key_raises_typeError exModelBoth "x" 5 [] idBody
      (Or.inl ⟨by decide, by decide⟩)⟩

theorem npAssign_length (is : List Nat) (vs : List Val) (y : List Val) :
    (npAssign y is vs).length = y.length := by
  induction is generalizing y vs with
  | nil => simp [npAssign]
  | cons i is ih =>
    cases vs with
    | nil => simp [npAssign]
    | cons v vs => simp [npAssign, ih, List.length_set]

theorem npAssign_getElem?_notMem {j : Nat} :
    ∀ (is : List Nat) (vs : List Val) (y : List Val), j ∉ is →
      (npAssign y is vs)[j]? = y[j]? := by
  intro is
  induction is with
  | nil => intro vs y _; simp [npAssign]
  | cons i is ih =>
    intro vs y hj
    cases vs with
    | nil => simp [npAssign]
    | cons v vs =>
      have hji : j ≠ i := fun h => hj (h ▸ List.mem_cons_self i is)
      have hjs : j ∉ is := fun h => hj (List.mem_cons_of_mem i h)
      rw [npAssign, ih vs (y.set i v) hjs]
      exact List.getElem?_set_ne (fun h => hji h.symm)

theorem npAssignC_length (is : List Nat) (c : Val) (y : List Val) :
    (npAssignC y is c).length = y.length := by
  induction is generalizing y with
  | nil => simp [npAssignC]
  | cons i is ih => simp [npAssignC, ih, List.length_set]

theorem npAssignC_getElem?_notMem {j : Nat} :
    ∀ (is : List Nat) (c : Val) (y : List Val), j ∉ is →
      (npAssignC y is c)[j]? = y[j]? := by
  intro is
  induction is with
  | nil => intro c y _; simp [npAssignC]
  | cons i is ih =>
    intro c y hj
    have hji : j ≠ i := fun h => hj (h ▸ List.mem_cons_self i is)
    have hjs : j ∉ is := fun h => hj (List.mem_cons_of_mem i h)
    rw [npAssignC, ih c (y.set i c) hjs]
    exact List.getElem?_set_ne (fun h => hji h.symm)

theorem npAssignC_getElem?_mem {j : Nat} :
    ∀ (is : List Nat) (c : Val) (y : List Val), j ∈ is → j < y.length →
      (npAssignC y is c)[j]? = some c := by
  intro is
  induction is with
  | nil => intro c y h _; cases h
  | cons i is ih =>
    intro c y hj hlt
    by_cases hjs : j ∈ is
    · rw [npAssignC]
      exact ih c (y.set i c) hjs (by simpa using hlt)
    · have hji : j = i := by
        rcases List.mem_cons.mp hj with h | h
        · exact h
        · exact absurd h hjs
      subst hji
      rw [npAssignC, npAssignC_getElem?_notMem is c (y.set j c) hjs]
      exact List.getElem?_set_self hlt

theorem clampIdx_mem {ynames : List String} :
    ∀ {args : List (String × Val)} {is : List Nat} {j : Nat},
      clampIdx ynames args = some is → j ∈ is →
      ∃ a ∈ args, pyIndex ynames a.1 = some j := by
  intro args
  induction args with
  | nil =>
    intro is j h hj
    simp [clampIdx] at h
    subst h
    cases hj
  | cons a rest ih =>
    intro is j h hj
    rw [clampIdx] at h
    cases h1 : pyIndex ynames a.1 with
    | none => rw [h1] at h; cases h
    | some k =>
      rw [h1] at h
      cases h2 : clampIdx ynames rest with
      | none => rw [h2] at h; cases h
      | some is' =>
        rw [h2] at h
        simp only [Option.map_some] at h
        cases h
        rcases List.mem_cons.mp hj with hjk | hjs
        · exact ⟨a, List.mem_cons_self a rest, hjk ▸ h1⟩
        · rcases ih h2 hjs with ⟨b, hb, hbj⟩
          exact ⟨b, List.mem_cons_of_mem a hb, hbj⟩

theorem clampIdx_nodup {ynames : List String} :
    ∀ {args : List (String × Val)} {is : List Nat},
      clampIdx ynames args = some is → (args.map Prod.fst).Nodup →
      is.Nodup := by
  intro args
  induction args with
  | nil =>
    intro is h _
    simp [clampIdx] at h
    subst h
    exact List.nodup_nil
  | cons a rest ih =>
    intro is h hnd
    rw [clampIdx] at h
    cases h1 : pyIndex ynames a.1 with
    | none => rw [h1] at h; cases h
    | some k =>
      rw [h1] at h
      cases h2 : clampIdx ynames rest with
      | none => rw [h2] at h; cases h
      | some is' =>
        rw [h2] at h
        simp only [Option.map_some] at h
        cases h
        simp only [List.map_cons, List.nodup_cons] at hnd
        refine List.nodup_cons.mpr ⟨?_, ih h2 hnd.2⟩
        intro hk
        rcases clampIdx_mem h2 hk with ⟨b, hb, hbj⟩
        have hne : b.1 ≠ a.1 := by
          intro he
          exact hnd.1 (he ▸ List.mem_map_of_mem Prod.fst hb)
        exact pyIndex_inj hbj h1 hne rfl

theorem clampInitY_eq_npAssign {ynames : List String} :
    ∀ {args : List (String × Val)} {is : List Nat} (y : List Val),
      clampIdx ynames args = some is →
      clampInitY y ynames args = npAssign y is (args.map Prod.snd) := by
  intro args
  induction args with
  | nil =>
    intro is y h
    simp [clampIdx] at h
    subst h
    simp [clampInitY, npAssign]
  | cons a rest ih =>
    intro is y h
    rw [clampIdx] at h
    cases h1 : pyIndex ynames a.1 with
    | none => rw [h1] at h; cases h
    | some k =>
      rw [h1] at h
      cases h2 : clampIdx ynames rest with
      | none => rw [h2] at h; cases h
      | some is' =>
        rw [h2] at h
        simp only [Option.map_some] at h
        cases h
        simp only [clampInitY, List.foldl_cons, List.map_cons, npAssign, h1,
          Option.getD_some]
        exact ih (y.set k a.2) h2

theorem npAssign_clamped {ynames : List String} :
    ∀ {args : List (String × Val)} {is : List Nat} (y : List Val),
      clampIdx ynames args = some is → (args.map Prod.fst).Nodup →
      (∀ j ∈ is, j < y.length) →
      ∀ a ∈ args, ∀ ja, pyIndex ynames a.1 = some ja →
        (npAssign y is (args.map Prod.snd))[ja]? = some a.2 := by
  intro args
  induction args with
  | nil => intro is y _ _ _ a ha; cases ha
  | cons a0 rest ih =>
    intro is y h hnd hb a ha ja hja
    rw [clampIdx] at h
    cases h1 : pyIndex ynames a0.1 with
    | none => rw [h1] at h; cases h
    | some k =>
      rw [h1] at h
      cases h2 : clampIdx ynames rest with
      | none => rw [h2] at h; cases h
      | some is' =>
        rw [h2] at h
        simp only [Option.map_some] at h
        cases h
        simp only [List.map_cons, List.nodup_cons] at hnd
        have hkni : k ∉ is' := by
          intro hk
          rcases clampIdx_mem h2 hk with ⟨b, hb', hbj⟩
          have hne : b.1 ≠ a0.1 := by
            intro he
            exact hnd.1 (he ▸ List.mem_map_of_mem Prod.fst hb')
          exact pyIndex_inj hbj h1 hne rfl
        rcases List.mem_cons.mp ha with rfl | ha'
        · have hja2 : ja = k := by
            rw [hja] at h1
            exact Option.some.inj h1
          subst hja2
          rw [List.map_cons, npAssign,
            npAssign_getElem?_notMem is' (rest.map Prod.snd) _ hkni]
          exact List.getElem?_set_self (hb ja (List.mem_cons_self ja is'))
        · rw [List.map_cons, npAssign]
          exact ih (y.set k a0.2) h2 hnd.2
            (fun j hj => by
              simpa using hb j (List.mem_cons_of_mem k hj))
            a ha' ja hja

theorem clampEnter_eq {m : NamedModel} {args : List (String × Val)}
    {w : ClampWorld} (h : clampEnter m args = some w) :
    w.oyr = m.yr ∧
    w.dyr = Recarraylink.mk0 (clampInitY m.yr.x m.yr.names args) m.yr.names ∧
    w.pnames = m.pnames ∧
    w.pr = (if "stim_amplitude" ∈ m.pnames then
        m.pr.set ((pyIndex m.pnames "stim_amplitude").getD 0) 0
      else m.pr) := by
  unfold clampEnter at h
  cases hidx : clampIdx m.yr.names args with
  | none => rw [hidx] at h; cases h
  | some is =>
    rw [hidx] at h
    simp only [Option.some.injEq] at h
    subst h
    exact ⟨rfl, rfl, rfl, rfl⟩

theorem dynclampEnter_eq {m : NamedModel} {V ion : String}
    {w : ClampWorld} (h : dynclampEnter m V ion = some w) :
    w.oyr = m.yr ∧
    w.dyr = Recarraylink.mk0 m.yr.x m.yr.names ∧
    w.pnames = m.pnames ∧
    w.pr = (if "stim_amplitude" ∈ m.pnames then
        m.pr.set ((pyIndex m.pnames "stim_amplitude").getD 0) 0
      else m.pr) := by
  unfold dynclampEnter at h
  cases h1 : pyIndex m.yr.names V with
  | none => rw [h1] at h; cases h
  | some iV =>
    cases h2 : pyIndex m.yr.names ion with
    | none => rw [h1, h2] at h; cases h
    | some iI =>
      rw [h1, h2] at h
      simp only [Option.some.injEq] at h
      subst h
      exact ⟨rfl, rfl, rfl, rfl⟩

/-- Claim C7 names a code bug.  The claim — and the source's own comment
on lines 263-266 ("we must also set the state variables to their clamped
values on every invocation") — says the wrapped right-hand side overwrites
each clamped field position with its own fixed value.  But the closure
reads the local `v` after the initialization loop on line 282 has rebound
it to the last keyword's value, so at `clamp(x=1, y=2)` on a three-field
state with working state `[4, 5, 6]` the code's working copy pins BOTH
clamped positions to 2, giving `[2, 2, 6]`, where the claim's pairwise
assignment gives `[1, 2, 6]`; the divergence is observable through a probe
right-hand side that reports the working state it receives.  Zeroing of
the clamped derivative entries, the 0 return value, and the
construction-time initial state (whose per-iteration loop does assign
each field its own value) behave as claimed. -/
theorem clamp_rhs_broadcasts_last_value :
    (npAssignC [4, 5, 6] [0, 1] 2 = [2, 2, 6]) ∧
    (npAssign [4, 5, 6] [0, 1] [1, 2] = [1, 2, 6]) ∧
    (npAssignC [4, 5, 6] [0, 1] 2 ≠ npAssign [4, 5, 6] [0, 1] [1, 2]) ∧
    ((clampRHS probeRHS [0, 1] 2 0 [4, 5, 6]).1 = [0, 0, 22]) ∧
    ((clampRHS probeRHS [0, 1] 2 0 [4, 5, 6]).1
      ≠ npAssignC (probeRHS 0 (npAssign [4, 5, 6] [0, 1] [1, 2])) [0, 1] 0) ∧
    ((clampRHS probeRHS [0, 1] 2 0 [4, 5, 6]).2 = 0) ∧
    (clampInitY [4, 5, 6] ["x", "y", "z"] [("x", 1), ("y", 2)] = [1, 2, 6]) := by
  refine ⟨by decide, by decide, by decide, by decide, by decide, by decide,
    by decide⟩

theorem copyBackAux_fst :
    ∀ (ns : List String) (s d : Recarraylink),
      (copyBackAux ns s d).1.x = s.x ∧ (copyBackAux ns s d).1.names = s.names := by
  intro ns
  induction ns with
  | nil => intro s d; exact ⟨rfl, rfl⟩
  | cons k ks ih =>
    intro s d
    rw [copyBackAux]
    by_cases hk : k ∈ d.names
    · simp only [hk, if_true]
      rcases ih (ralGet s k).1 (ralSet d k ((ralGet s k).2.getD 0)) with ⟨h1, h2⟩
      rw [h1, h2, ralGet_fst_x, ralGet_fst_names]
      exact ⟨rfl, rfl⟩
    · simp only [hk, if_false]
      exact ih s d

theorem copyBackAux_dst_pres :
    ∀ (ns : List String) (s d : Recarraylink),
      (copyBackAux ns s d).2.names = d.names ∧
      (copyBackAux ns s d).2.x.length = d.x.length := by
  intro ns
  induction ns with
  | nil => intro s d; exact ⟨rfl, rfl⟩
  | cons k ks ih =>
    intro s d
    rw [copyBackAux]
    by_cases hk : k ∈ d.names
    · simp only [hk, if_true]
      rcases ih (ralGet s k).1 (ralSet d k ((ralGet s k).2.getD 0)) with ⟨h1, h2⟩
      rw [h1, h2, ralSet_names, ralSet_length]
      exact ⟨rfl, rfl⟩
    · simp only [hk, if_false]
      exact ih s d

theorem copyBackAux_not_copied :
    ∀ (ns : List String) (s d : Recarraylink) (g : String) (j : Nat),
      g ∉ ns → pyIndex d.names g = some j →
      (copyBackAux ns s d).2.x[j]? = d.x[j]? := by
  intro ns
  induction ns with
  | nil => intro s d g j _ _; rfl
  | cons k ks ih =>
    intro s d g j hg hj
    have hgk : g ≠ k := fun h => hg (h ▸ List.mem_cons_self k ks)
    have hgs : g ∉ ks := fun h => hg (List.mem_cons_of_mem k h)
    rw [copyBackAux]
    by_cases hk : k ∈ d.names
    · simp only [hk, if_true]
      rcases Option.isSome_iff_exists.mp (pyIndex_mem hk) with ⟨jk, hjk⟩
      have hj' : pyIndex (ralSet d k ((ralGet s k).2.getD 0)).names g = some j := by
        rw [ralSet_names]; exact hj
      rw [ih (ralGet s k).1 (ralSet d k ((ralGet s k).2.getD 0)) g j hgs hj',
        ralSet_x_eq _ hjk]
      exact List.getElem?_set_ne (pyIndex_inj hjk hj (fun h => hgk h.symm))
    · simp only [hk, if_false]
      exact ih s d g j hgs hj

theorem copyBackAux_copied :
    ∀ (ns : List String) (s d : Recarraylink) (g : String) (i j : Nat),
      ns.Nodup → g ∈ ns → pyIndex s.names g = some i →
      pyIndex d.names g = some j → i < s.x.length → j < d.x.length →
      (copyBackAux ns s d).2.x[j]? = s.x[i]? := by
  intro ns
  induction ns with
  | nil => intro s d g i j _ hg; cases hg
  | cons k ks ih =>
    intro s d g i j hnd hg hsi hdj hil hjl
    have hkd : g ∈ ks → g ≠ k → True := fun _ _ => trivial
    rw [copyBackAux]
    by_cases hgk : g = k
    · subst hgk
      have hgd : g ∈ d.names := List.getElem?_mem (pyIndex_getElem? hdj)
      simp only [hgd, if_true]
      have hgks : g ∉ ks := (List.nodup_cons.mp hnd).1
      have hj' : pyIndex (ralSet d g ((ralGet s g).2.getD 0)).names g = some j := by
        rw [ralSet_names]; exact hdj
      rw [copyBackAux_not_copied ks (ralGet s g).1
        (ralSet d g ((ralGet s g).2.getD 0)) g j hgks hj',
        ralSet_x_eq _ hdj]
      rw [ralGet_snd hsi, List.getElem?_eq_getElem hil]
      simp only [Option.getD_some]
      rw [List.getElem?_set_self hjl]
    · have hgks : g ∈ ks := by
        rcases List.mem_cons.mp hg with h | h
        · exact absurd h hgk
        · exact h
      by_cases hk : k ∈ d.names
      · simp only [hk, if_true]
        have hsi' : pyIndex (ralGet s k).1.names g = some i := by
          rw [ralGet_fst_names]; exact hsi
        have hdj' : pyIndex (ralSet d k ((ralGet s k).2.getD 0)).names g = some j := by
          rw [ralSet_names]; exact hdj
        have hil' : i < (ralGet s k).1.x.length := by
          rw [ralGet_fst_x]; exact hil
        have hjl' : j < (ralSet d k ((ralGet s k).2.getD 0)).x.length := by
          rw [ralSet_length]; exact hjl
        rw [ih (ralGet s k).1 (ralSet d k ((ralGet s k).2.getD 0)) g i j
          (List.nodup_cons.mp hnd).2 hgks hsi' hdj' hil' hjl', ralGet_fst_x]
      · simp only [hk, if_false]
        exact ih s d g i j (List.nodup_cons.mp hnd).2 hgks hsi hdj hil hjl

/-- Claim C8: on exit from a `clamp` or `dynclamp` scope, the copy-back
loop writes into the origin's named view exactly those state fields whose
names occur in both the variant's and the origin's state field lists
(taking the variant's current buffer values), and leaves every other field
of the origin's state unchanged; the variant's buffer itself is not
modified by the copy-back. -/
theorem clamp_exit_copyback_frame (src dst : Recarraylink)
    (hnd : src.names.Nodup)
    (hsl : src.names.length = src.x.length)
    (hdl : dst.names.length = dst.x.length) :
    (∀ g i j, pyIndex src.names g = some i → pyIndex dst.names g = some j →
      (copyBack src dst).2.x[j]? = src.x[i]?) ∧
    (∀ g j, g ∉ src.names → pyIndex dst.names g = some j →
      (copyBack src dst).2.x[j]? = dst.x[j]?) ∧
    ((copyBack src dst).1.x = src.x) := by
  refine ⟨?_, ?_, (copyBackAux_fst src.names src dst).1⟩
  · intro g i j hsi hdj
    have hg : g ∈ src.names := List.getElem?_mem (pyIndex_getElem? hsi)
    exact copyBackAux_copied src.names src dst g i j hnd hg hsi hdj
      (hsl ▸ pyIndex_lt_length hsi) (hdl ▸ pyIndex_lt_length hdj)
  · intro g j hg hdj
    exact copyBackAux_not_copied src.names src dst g j hg hdj

/-- Witness for C8 at a concrete input: variant fields `a`, `b`; origin
fields `b`, `c`; only the shared field `b` is copied back. -/
theorem clamp_exit_copyback_frame_witness :
    (exSrcLink.names.Nodup) ∧
    (exSrcLink.names.length = exSrcLink.x.length) ∧
    (exDstLink.names.length = exDstLink.x.length) ∧
    ((∀ g i j, pyIndex exSrcLink.names g = some i →
        pyIndex exDstLink.names g = some j →
        (copyBack exSrcLink exDstLink).2.x[j]? = exSrcLink.x[i]?) ∧
      (∀ g j, g ∉ exSrcLink.names → pyIndex exDstLink.names g = some j →
        (copyBack exSrcLink exDstLink).2.x[j]? = exDstLink.x[j]?) ∧
      ((copyBack exSrcLink exDstLink).1.x = exSrcLink.x)) :=
  ⟨by decide, by decide, by decide,
    clamp_exit_copyback_frame exSrcLink exDstLink
      (by decide) (by decide) (by decide)⟩

/-- Claim C10: when the origin model has a `stim_amplitude` parameter,
entering a `clamp` or `dynclamp` scope sets that parameter to 0 in the
derived model; the derived model shares the parameter vector by reference
with the origin (the world holds a single shared `pr`), so the origin's
`stim_amplitude` is thereby zeroed too, and the scope-exit copy-back
(which touches only state fields) does not undo the change: the origin
model emerging from the scope carries whatever the shared vector holds at
body end. -/
theorem clamp_dynclamp_zero_shared_stim
    (m : NamedModel) (args : List (String × Val)) (V ion : String)
    (w w2 : ClampWorld)
    (hstim : "stim_amplitude" ∈ m.pnames)
    (hw : clampEnter m args = some w)
    (hw2 : dynclampEnter m V ion = some w2) :
    (w.pr = m.pr.set ((pyIndex m.pnames "stim_amplitude").getD 0) 0) ∧
    (w2.pr = m.pr.set ((pyIndex m.pnames "stim_amplitude").getD 0) 0) ∧
    ((pyIndex m.pnames "stim_amplitude").getD 0 < m.pr.length →
      w.pr[(pyIndex m.pnames "stim_amplitude").getD 0]? = some 0) ∧
    (∀ body, ∃ mf, clampScope m args body = some mf ∧ mf.pr = (body w).pr) ∧
    (∀ body, ∃ mf, dynclampScope m V ion body = some mf ∧
      mf.pr = (body w2).pr) := by
  have h1 : w.pr = m.pr.set ((pyIndex m.pnames "stim_amplitude").getD 0) 0 := by
    rw [(clampEnter_eq hw).2.2.2, if_pos hstim]
  have h2 : w2.pr = m.pr.set ((pyIndex m.pnames "stim_amplitude").getD 0) 0 := by
    rw [(dynclampEnter_eq hw2).2.2.2, if_pos hstim]
  refine ⟨h1, h2, ?_, ?_, ?_⟩
  · intro hlt
    rw [h1]
    exact List.getElem?_set_self (by simpa using hlt)
  · intro body
    simp only [clampScope, hw, Option.map_some]
    exact ⟨_, rfl, rfl⟩
  · intro body
    simp only [dynclampScope, hw2, Option.map_some]
    exact ⟨_, rfl, rfl⟩

/-- Witness for C10 at a concrete input: `exStimModel` has
`stim_amplitude` at parameter position 1 with value 4; entering either
scope zeroes it in the shared vector and exiting leaves it zeroed. -/
theorem clamp_dynclamp_zero_shared_stim_witness :
    ("stim_amplitude" ∈ exStimModel.pnames) ∧
    (clampEnter exStimModel [("V", 0)] = some exStimClampW) ∧
    (dynclampEnter exStimModel "V" "K" = some exStimDynW) ∧
    ((exStimClampW.pr
        = exStimModel.pr.set
            ((pyIndex exStimModel.pnames "stim_amplitude").getD 0) 0) ∧
      (exStimDynW.pr
        = exStimModel.pr.set
            ((pyIndex exStimModel.pnames "stim_amplitude").getD 0) 0) ∧
      ((pyIndex exStimModel.pnames "stim_amplitude").getD 0
          < exStimModel.pr.length →
        exStimClampW.pr[(pyIndex exStimModel.pnames
          "stim_amplitude").getD 0]? = some 0) ∧
      (∀ body, ∃ mf, clampScope exStimModel [("V", 0)] body = some mf ∧
        mf.pr = (body exStimClampW).pr) ∧
      (∀ body, ∃ mf, dynclampScope exStimModel "V" "K" body = some mf ∧
        mf.pr = (body exStimDynW).pr)) :=
  ⟨by decide, by decide, by decide,
    clamp_dynclamp_zero_shared_stim exStimModel [("V", 0)] "V" "K"
      exStimClampW exStimDynW (by decide) (by decide) (by decide)⟩

theorem digitChar_digitVal (d : Nat) (h : d < 10) :
    digitVal (digitChar d) = some d := by
  interval_cases d <;> decide

theorem digitChar_bounds (d : Nat) (h : d < 10) :
    '0' ≤ digitChar d ∧ digitChar d ≤ '9' := by
  interval_cases d <;> exact ⟨by decide, by decide⟩

theorem natCharsAux_ne_nil :
    ∀ (fuel n : Nat), n < fuel → natCharsAux fuel n ≠ [] := by
  intro fuel
  induction fuel with
  | zero => intro n h; omega
  | succ f ih =>
    intro n _
    rw [natCharsAux]
    by_cases h10 : n < 10
    · simp [h10]
    · simp [h10]

theorem natCharsAux_digits :
    ∀ (fuel n : Nat) (c : Char), n < fuel → c ∈ natCharsAux fuel n →
      '0' ≤ c ∧ c ≤ '9' := by
  intro fuel
  induction fuel with
  | zero => intro n c h; omega
  | succ f ih =>
    intro n c hn hc
    rw [natCharsAux] at hc
    by_cases h10 : n < 10
    · rw [if_pos h10] at hc
      rcases List.mem_cons.mp hc with rfl | hc
      · exact digitChar_bounds n h10
      · cases hc
    · rw [if_neg h10] at hc
      rcases List.mem_append.mp hc with hc | hc
      · exact ih (n / 10) c (by omega) hc
      · rcases List.mem_cons.mp hc with rfl | hc
        · exact digitChar_bounds (n % 10) (by omega)
        · cases hc

theorem natCharsAux_foldl :
    ∀ (fuel n a : Nat), n < fuel →
      (natCharsAux fuel n).foldl digStep (some a)
        = some (a * 10 ^ (natCharsAux fuel n).length + n) := by
  intro fuel
  induction fuel with
  | zero => intro n a h; omega
  | succ f ih =>
    intro n a hn
    rw [natCharsAux]
    by_cases h10 : n < 10
    · rw [if_pos h10]
      simp [digStep, digitChar_digitVal n h10]
    · rw [if_neg h10]
      rw [List.foldl_append, ih (n / 10) a (by omega)]
      have hd := digitChar_digitVal (n % 10) (by omega)
      simp only [List.foldl_cons, List.foldl_nil, digStep, hd,
        Option.some_bind, Option.map_some, Option.map_some',
        List.length_append, List.length_cons, List.length_nil]
      congr 1
      have hdm : n / 10 * 10 + n % 10 = n := by omega
      rw [pow_succ]
      calc (a * 10 ^ (natCharsAux f (n / 10)).length + n / 10) * 10 + n % 10
          = a * (10 ^ (natCharsAux f (n / 10)).length * 10)
              + (n / 10 * 10 + n % 10) := by ring
        _ = a * (10 ^ (natCharsAux f (n / 10)).length * 10) + n := by rw [hdm]

theorem pyIntNat_natChars (n : Nat) : pyIntNat (natChars n) = some n := by
  unfold pyIntNat natChars
  rw [if_neg (natCharsAux_ne_nil (n + 1) n (by omega)),
    natCharsAux_foldl (n + 1) n 0 (by omega)]
  simp

theorem natChars_digits {n : Nat} {c : Char} (h : c ∈ natChars n) :
    '0' ≤ c ∧ c ≤ '9' :=
  natCharsAux_digits (n + 1) n c (by omega) h

theorem natChars_no_us (n : Nat) : '_' ∉ natChars n := by
  intro h
  exact absurd (natChars_digits h).2 (by decide)

theorem natChars_no_dot (n : Nat) : '.' ∉ natChars n := by
  intro h
  exact absurd (natChars_digits h).1 (by decide)

theorem pySplit_ne_nil (c : Char) (s : List Char) : pySplit c s ≠ [] := by
  cases s with
  | nil => simp [pySplit]
  | cons a as =>
    rw [pySplit]
    split <;> simp

theorem pySplit_append (c : Char) (xs ys : List Char) :
    pySplit c (xs ++ c :: ys) = pySplit c xs ++ pySplit c ys := by
  induction xs with
  | nil => simp [pySplit]
  | cons a as ih =>
    by_cases h : a = c
    · subst h
      rw [List.cons_append, pySplit, if_pos (beq_self_eq_true a), ih,
        pySplit, if_pos (beq_self_eq_true a), List.cons_append]
    · have hb : (a == c) = false := beq_eq_false_iff_ne.mpr h
      cases hsp : pySplit c as with
      | nil => exact absurd hsp (pySplit_ne_nil c as)
      | cons p ps =>
        rw [List.cons_append, pySplit, if_neg (by simp [hb]), ih, hsp,
          pySplit, if_neg (by simp [hb]), hsp]
        simp

theorem pySplit_no_sep (c : Char) :
    ∀ (s : List Char), c ∉ s → pySplit c s = [s] := by
  intro s
  induction s with
  | nil => intro _; rfl
  | cons a as ih =>
    intro h
    have hac : (a == c) = false := by
      refine beq_eq_false_iff_ne.mpr ?_
      intro he
      exact h (he ▸ List.mem_cons_self a as)
    have has : c ∉ as := fun hm => h (List.mem_cons_of_mem a hm)
    simp [pySplit, hac, ih has]

theorem getLastD_default {α : Type} {l : List α} (h : l ≠ []) (d d' : α) :
    l.getLastD d = l.getLastD d' := by
  cases l with
  | nil => exact absurd rfl h
  | cons b bs => simp [List.getLastD]

theorem getLastD_append_right {α : Type} (l₁ l₂ : List α) (d : α)
    (h : l₂ ≠ []) : (l₁ ++ l₂).getLastD d = l₂.getLastD d := by
  induction l₁ generalizing d with
  | nil => rfl
  | cons a as ih =>
    rw [List.cons_append, List.getLastD_cons, ih a]
    exact getLastD_default h a d

theorem parseJobID_markerName (d : JobConf) (i : Nat) :
    parseJobID (markerName d i) = some i := by
  have hshape : markerName d i
      = d.jobfile ++ '_' :: ("timeout".toList ++ '_' :: natChars i) := by
    show d.jobfile ++ "_timeout_".toList ++ natChars i = _
    have h0 : "_timeout_".toList = '_' :: ("timeout".toList ++ ['_']) := rfl
    rw [h0]
    simp
  unfold parseJobID
  rw [hshape, pySplit_append '_' d.jobfile,
    pySplit_append '_' "timeout".toList (natChars i),
    pySplit_no_sep '_' (natChars i) (natChars_no_us i),
    getLastD_append_right _ _ _ (by simp),
    getLastD_append_right _ _ _ (by simp)]
  have hlast : ([natChars i] : List (List Char)).getLastD [] = natChars i := rfl
  rw [hlast, pySplit_no_sep '.' (natChars i) (natChars_no_dot i),
    List.headD_cons, pyIntNat_natChars]

theorem parseJobID_errName (d : JobConf) (i : Nat) :
    parseJobID (errName d i) = some i := by
  have hsep : '_' ∉ natChars i ++ '.' :: "pickle".toList := by
    intro h
    rcases List.mem_append.mp h with h | h
    · exact natChars_no_us i h
    · rcases List.mem_cons.mp h with h | h
      · cases h
      · revert h; decide
  have hshape : errName d i
      = d.errorfile ++ '_' :: (natChars i ++ '.' :: "pickle".toList) := by
    show d.errorfile ++ "_".toList ++ natChars i ++ ".pickle".toList = _
    have h0 : "_".toList = ['_'] := rfl
    have h1 : ".pickle".toList = '.' :: "pickle".toList := rfl
    rw [h0, h1]
    simp
  unfold parseJobID
  rw [hshape, pySplit_append '_' d.errorfile,
    pySplit_no_sep '_' (natChars i ++ '.' :: "pickle".toList) hsep,
    getLastD_append_right _ _ _ (by simp)]
  have hlast : ([natChars i ++ '.' :: "pickle".toList] : List (List Char)).getLastD []
      = natChars i ++ '.' :: "pickle".toList := rfl
  rw [hlast, pySplit_append '.' (natChars i) "pickle".toList,
    pySplit_no_sep '.' (natChars i) (natChars_no_dot i)]
  rw [List.cons_append, List.headD_cons, pyIntNat_natChars]

theorem errScan_none (sh : List DirEntry)
    (h : ∀ f ∈ sh, pyIn errPat f.name = false) : errScan sh = none := by
  unfold errScan
  rw [List.find?_eq_none]
  intro x hx
  simp [h x hx]

theorem errScan_unique (sh files : List DirEntry) (e : DirEntry)
    (hperm : sh.Perm files) (he : e ∈ files) (hm : pyIn errPat e.name = true)
    (huniq : ∀ f ∈ files, pyIn errPat f.name = true → f = e) :
    errScan sh = some e := by
  unfold errScan
  have hsh : e ∈ sh := hperm.mem_iff.mpr he
  have hsome : (sh.find? (fun f => pyIn errPat f.name)).isSome :=
    List.find?_isSome.mpr ⟨e, hsh, hm⟩
  rcases Option.isSome_iff_exists.mp hsome with ⟨g, hg⟩
  rw [hg]
  have hgm : pyIn errPat g.name = true := by
    have h := List.find?_some hg
    simpa using h
  have hgf : g ∈ files := hperm.mem_iff.mp (List.mem_of_find?_eq_some hg)
  rw [huniq g hgf hgm]

theorem timeoutScan_no_match :
    ∀ (l : List DirEntry) (j : Nat),
      (∀ f ∈ l, pyIn jtPat f.name = false) → timeoutScan l j = some j := by
  intro l
  induction l with
  | nil => intro j _; rfl
  | cons f rest ih =>
    intro j h
    rw [timeoutScan, if_neg (by simp [h f (List.mem_cons_self f rest)])]
    exact ih j (fun f' hf' => h f' (List.mem_cons_of_mem f hf'))

theorem timeoutScan_finds (P : Nat → Prop) :
    ∀ (l : List DirEntry) (j : Nat),
      (∀ f ∈ l, pyIn jtPat f.name = true →
        ∃ k, parseJobID f.name = some k ∧ P k) →
      (∃ f ∈ l, pyIn jtPat f.name = true) →
      ∃ jr, timeoutScan l j = some jr ∧ P jr := by
  intro l
  induction l with
  | nil =>
    intro j _ hex
    rcases hex with ⟨f, hf, _⟩
    cases hf
  | cons f rest ih =>
    intro j hwf hex
    rw [timeoutScan]
    by_cases hm : pyIn jtPat f.name = true
    · rw [if_pos hm]
      rcases hwf f (List.mem_cons_self f rest) hm with ⟨k, hk, hPk⟩
      rw [hk]
      show ∃ jr, timeoutScan rest k = some jr ∧ P jr
      by_cases hex2 : ∃ f' ∈ rest, pyIn jtPat f'.name = true
      · exact ih k (fun f' hf' => hwf f' (List.mem_cons_of_mem f hf')) hex2
      · have hall : ∀ f' ∈ rest, pyIn jtPat f'.name = false := by
          intro f' hf'
          by_contra hcon
          exact hex2 ⟨f', hf', by simpa using hcon⟩
        rw [timeoutScan_no_match rest k hall]
        exact ⟨k, rfl, hPk⟩
    · rw [if_neg hm]
      refine ih j (fun f' hf' => hwf f' (List.mem_cons_of_mem f hf')) ?_
      rcases hex with ⟨f', hf', hm'⟩
      rcases List.mem_cons.mp hf' with rfl | h
      · exact absurd hm' hm
      · exact ⟨f', h, hm'⟩

theorem touch_hasFile_self (fs : JobFS) (name : List Char) :
    hasFile (touch fs name) name = true := by
  unfold touch
  by_cases h : hasFile fs name = true
  · rw [if_pos h]
    exact h
  · rw [if_neg h]
    simp [hasFile, List.any_append]

theorem touch_mono (fs : JobFS) (n0 n1 : List Char)
    (h : hasFile fs n0 = true) : hasFile (touch fs n1) n0 = true := by
  unfold touch
  by_cases hh : hasFile fs n1 = true
  · rw [if_pos hh]
    exact h
  · rw [if_neg hh]
    simp only [hasFile, List.any_append]
    simp only [hasFile] at h
    simp [h]

theorem touch_counter (fs : JobFS) (name : List Char) :
    (touch fs name).counter = fs.counter := by
  unfold touch
  split <;> rfl

theorem find_jobID_first_pass (d : JobConf) (fs : JobFS) (sh : List DirEntry)
    (c : Nat) (hc : fs.counter = some c) (hlt : c < d.Nsims) :
    find_jobID d fs sh
      = some (c, { touch fs (markerName d c) with counter := some (c + 1) }) := by
  simp [find_jobID, hc, hlt]

theorem find_jobID_absent (d : JobConf) (fs : JobFS) (sh : List DirEntry) :
    find_jobID d { fs with counter := none } sh
      = find_jobID d { fs with counter := some 0 } sh := rfl

theorem find_jobID_sentinel (d : JobConf) (fs : JobFS) (sh : List DirEntry)
    (c : Nat) (hc : fs.counter = some c) (hge : d.Nsims ≤ c)
    (hne : ∀ f ∈ sh, pyIn errPat f.name = false)
    (hnt : ∀ f ∈ sh, pyIn jtPat f.name = false) :
    find_jobID d fs sh = some (d.Nsims, fs) := by
  have h1 : errScan sh = none := errScan_none sh hne
  have h2 : timeoutScan sh c = some c := timeoutScan_no_match sh c hnt
  simp [find_jobID, hc, h1, h2, Nat.not_lt.mpr hge]

theorem acquireRun_first_pass (d : JobConf) :
    ∀ (n c : Nat) (fs : JobFS), fs.counter = some c → c + n ≤ d.Nsims →
      ∃ fs1, acquireRun d n fs = some (List.range' c n, fs1) ∧
        fs1.counter = some (c + n) ∧
        (∀ name, hasFile fs name = true → hasFile fs1 name = true) ∧
        (∀ i, c ≤ i → i < c + n → hasFile fs1 (markerName d i) = true) := by
  intro n
  induction n with
  | zero =>
    intro c fs hc _
    exact ⟨fs, by simp [acquireRun], by simpa using hc,
      fun _ h => h, fun i h1 h2 => by omega⟩
  | succ n ih =>
    intro c fs hc hle
    have hcN : c < d.Nsims := by omega
    have hstep := find_jobID_first_pass d fs fs.files c hc hcN
    obtain ⟨fs1, h1, h2, h3, h4⟩ :=
      ih (c + 1) { touch fs (markerName d c) with counter := some (c + 1) }
        rfl (by omega)
    refine ⟨fs1, ?_, ?_, ?_, ?_⟩
    · rw [acquireRun, hstep]
      show (acquireRun d n
          { touch fs (markerName d c) with counter := some (c + 1) }).map
            (fun r => (c :: r.1, r.2))
          = some (List.range' c (n + 1), fs1)
      rw [h1]
      simp [List.range'_succ]
    · rw [h2]
      have he : c + 1 + n = c + (n + 1) := by omega
      rw [he]
    · intro name hn
      exact h3 name (by
        show hasFile (touch fs (markerName d c)) name = true
        exact touch_mono fs name (markerName d c) hn)
    · intro i hi1 hi2
      by_cases hi : i = c
      · subst hi
        refine h3 (markerName d i) ?_
        show hasFile (touch fs (markerName d i)) (markerName d i) = true
        exact touch_hasFile_self fs (markerName d i)
      · exact h4 i (by omega) (by omega)

theorem acquireRun_sentinel (d : JobConf) (fs : JobFS) (c : Nat)
    (hc : fs.counter = some c) (hge : d.Nsims ≤ c)
    (hne : ∀ f ∈ fs.files, pyIn errPat f.name = false)
    (hnt : ∀ f ∈ fs.files, pyIn jtPat f.name = false) :
    ∀ m, acquireRun d m fs = some (List.replicate m d.Nsims, fs) := by
  intro m
  induction m with
  | zero => simp [acquireRun]
  | succ m ih =>
    rw [acquireRun, find_jobID_sentinel d fs fs.files c hc hge hne hnt]
    show (acquireRun d m fs).map (fun r => (d.Nsims :: r.1, r.2))
      = some (List.replicate (m + 1) d.Nsims, fs)
    rw [ih]
    simp [List.replicate_succ]

/-- Claim C4: with `Nsims = N` and a fresh (counter 0) or absent jobfile,
`N` consecutive `find_jobID` calls return exactly `0, 1, ..., N-1` in
ascending gap-free order, each creating that id's timeout marker and
persisting the incremented counter; once the counter has reached `N`, a
call finding no error artifact and no timeout marker in the scan directory
returns the sentinel `Nsims` and leaves the filesystem state unchanged, so
every further call keeps returning the sentinel as long as no new markers
appear (the iterated form is the last conjunct). -/
theorem find_jobID_monotonic_first_pass_and_sentinel (d : JobConf) :
    (∀ (fs : JobFS) (sh : List DirEntry),
      find_jobID d { fs with counter := none } sh
        = find_jobID d { fs with counter := some 0 } sh) ∧
    (∀ fs0 : JobFS, fs0.counter = some 0 →
      ∃ fs1, acquireRun d d.Nsims fs0 = some (List.range d.Nsims, fs1) ∧
        fs1.counter = some d.Nsims ∧
        (∀ i, i < d.Nsims → hasFile fs1 (markerName d i) = true)) ∧
    (∀ (fs : JobFS) (sh : List DirEntry) (c : Nat), fs.counter = some c →
      d.Nsims ≤ c → sh.Perm fs.files →
      (∀ f ∈ fs.files, pyIn errPat f.name = false) →
      (∀ f ∈ fs.files, pyIn jtPat f.name = false) →
      find_jobID d fs sh = some (d.Nsims, fs)) ∧
    (∀ (fs : JobFS) (c : Nat), fs.counter = some c → d.Nsims ≤ c →
      (∀ f ∈ fs.files, pyIn errPat f.name = false) →
      (∀ f ∈ fs.files, pyIn jtPat f.name = false) →
      ∀ m, acquireRun d m fs = some (List.replicate m d.Nsims, fs)) := by
  refine ⟨fun fs sh => find_jobID_absent d fs sh, ?_, ?_, ?_⟩
  · intro fs0 hc0
    obtain ⟨fs1, h1, h2, _, h4⟩ :=
      acquireRun_first_pass d d.Nsims 0 fs0 hc0 (by omega)
    exact ⟨fs1, by rw [h1, List.range_eq_range'], by simpa using h2,
      fun i hi => h4 i (by omega) (by omega)⟩
  · intro fs sh c hc hge hperm hne hnt
    exact find_jobID_sentinel d fs sh c hc hge
      (fun f hf => hne f (hperm.mem_iff.mp hf))
      (fun f hf => hnt f (hperm.mem_iff.mp hf))
  · intro fs c hc hge hne hnt
    exact acquireRun_sentinel d fs c hc hge hne hnt

/-- Witness for C4 at a concrete input: `Nsims = 2`, fresh jobfile, empty
scan directory; the first-pass clause and both sentinel clauses applied at
a drained state with counter 2. -/
theorem find_jobID_monotonic_first_pass_and_sentinel_witness :
    ((⟨some 0, []⟩ : JobFS).counter = some 0) ∧
    (∃ fs1, acquireRun exJobConf exJobConf.Nsims ⟨some 0, []⟩
        = some (List.range exJobConf.Nsims, fs1) ∧
      fs1.counter = some exJobConf.Nsims ∧
      (∀ i, i < exJobConf.Nsims →
        hasFile fs1 (markerName exJobConf i) = true)) ∧
    (find_jobID exJobConf ⟨some 2, []⟩ [] = some (exJobConf.Nsims, ⟨some 2, []⟩)) ∧
    (∀ m, acquireRun exJobConf m ⟨some 2, []⟩
      = some (List.replicate m exJobConf.Nsims, ⟨some 2, []⟩)) :=
  ⟨rfl,
    (find_jobID_monotonic_first_pass_and_sentinel exJobConf).2.1
      ⟨some 0, []⟩ rfl,
    (find_jobID_monotonic_first_pass_and_sentinel exJobConf).2.2.1
      ⟨some 2, []⟩ [] 2 rfl (by decide) (List.Perm.refl _)
      (fun f hf => absurd hf (List.not_mem_nil f))
      (fun f hf => absurd hf (List.not_mem_nil f)),
    (find_jobID_monotonic_first_pass_and_sentinel exJobConf).2.2.2
      ⟨some 2, []⟩ 2 rfl (by decide)
      (fun f hf => absurd hf (List.not_mem_nil f))
      (fun f hf => absurd hf (List.not_mem_nil f))⟩

theorem touch_mem_cases {fs : JobFS} {name : List Char} {f : DirEntry}
    (h : f ∈ (touch fs name).files) : f ∈ fs.files ∨ f = ⟨name, []⟩ := by
  unfold touch at h
  by_cases hh : hasFile fs name = true
  · rw [if_pos hh] at h
    exact Or.inl h
  · rw [if_neg hh] at h
    rcases List.mem_append.mp h with h | h
    · exact Or.inl h
    · rcases List.mem_cons.mp h with rfl | h
      · exact Or.inr rfl
      · cases h

theorem touch_mem_super {fs : JobFS} {name : List Char} {f : DirEntry}
    (h : f ∈ fs.files) : f ∈ (touch fs name).files := by
  unfold touch
  by_cases hh : hasFile fs name = true
  · rw [if_pos hh]
    exact h
  · rw [if_neg hh]
    exact List.mem_append_left _ h

/-- Claim C6 as amended: once all ids have been issued, if no file in the
scan directory matches the error pattern and at least one still-present
timeout marker has a filename containing the literal `job_timeout` (as
happens when the jobfile's basename is `job`), and every file matching
that pattern is a well-formed marker `<jobfile>_timeout_<id>` for an id
below `Nsims`, then `find_jobID` returns the id of some still-present
timeout marker — recreating its marker is a no-op since the marker still
exists, so the state is unchanged — rather than the sentinel.  (For a
jobfile whose marker names do not contain `job_timeout` the scan is blind
to them and the sentinel is returned; see the counterexample.) -/
theorem find_jobID_timeout_redo
    (d : JobConf) (fs : JobFS) (sh : List DirEntry) (c : Nat)
    (hc : fs.counter = some c) (hge : d.Nsims ≤ c)
    (hperm : sh.Perm fs.files)
    (hne : ∀ f ∈ fs.files, pyIn errPat f.name = false)
    (hwf : ∀ f ∈ fs.files, pyIn jtPat f.name = true →
      ∃ i, i < d.Nsims ∧ f.name = markerName d i)
    (hex : ∃ f ∈ fs.files, pyIn jtPat f.name = true) :
    ∃ j, j < d.Nsims ∧ hasFile fs (markerName d j) = true ∧
      find_jobID d fs sh = some (j, fs) := by
  have hP : ∀ f ∈ sh, pyIn jtPat f.name = true →
      ∃ k, parseJobID f.name = some k ∧
        (k < d.Nsims ∧ hasFile fs (markerName d k) = true) := by
    intro f hf hm
    rcases hwf f (hperm.mem_iff.mp hf) hm with ⟨i, hiN, hni⟩
    refine ⟨i, by rw [hni]; exact parseJobID_markerName d i, hiN, ?_⟩
    have hmem : f ∈ fs.files := hperm.mem_iff.mp hf
    simp only [hasFile, List.any_eq_true]
    exact ⟨f, hmem, by simp [hni]⟩
  have hex' : ∃ f ∈ sh, pyIn jtPat f.name = true := by
    rcases hex with ⟨f, hf, hm⟩
    exact ⟨f, hperm.mem_iff.mpr hf, hm⟩
  obtain ⟨jr, hscan, hjrN, hjrM⟩ := timeoutScan_finds _ sh c hP hex'
  refine ⟨jr, hjrN, hjrM, ?_⟩
  have herr : errScan sh = none :=
    errScan_none sh (fun f hf => hne f (hperm.mem_iff.mp hf))
  have htouch : touch fs (markerName d jr) = fs := by
    unfold touch
    rw [if_pos hjrM]
  simp [find_jobID, hc, herr, hscan, Nat.not_lt.mpr hge, hjrN, htouch]

/-- Witness for the amended C6 at a concrete input: `Nsims = 3`, jobfile
`job`, ids 0, 1, 2 issued and never released; the next call returns one of
the marked ids instead of the sentinel. -/
theorem find_jobID_timeout_redo_witness :
    (exC6FS.counter = some 3) ∧ (exJobConf3.Nsims ≤ 3) ∧
    (∀ f ∈ exC6FS.files, pyIn errPat f.name = false) ∧
    (∀ f ∈ exC6FS.files, pyIn jtPat f.name = true →
      ∃ i, i < exJobConf3.Nsims ∧ f.name = markerName exJobConf3 i) ∧
    (∃ f ∈ exC6FS.files, pyIn jtPat f.name = true) ∧
    (∃ j, j < exJobConf3.Nsims ∧
      hasFile exC6FS (markerName exJobConf3 j) = true ∧
      find_jobID exJobConf3 exC6FS exC6FS.files = some (j, exC6FS)) := by
  have hwf : ∀ f ∈ exC6FS.files, pyIn jtPat f.name = true →
      ∃ i, i < exJobConf3.Nsims ∧ f.name = markerName exJobConf3 i := by
    intro f hf _
    have hm : f = (⟨markerName exJobConf3 0, []⟩ : DirEntry) ∨
        f = (⟨markerName exJobConf3 1, []⟩ : DirEntry) ∨
        f = (⟨markerName exJobConf3 2, []⟩ : DirEntry) := by
      simpa [exC6FS] using hf
    rcases hm with rfl | rfl | rfl
    · exact ⟨0, by decide, rfl⟩
    · exact ⟨1, by decide, rfl⟩
    · exact ⟨2, by decide, rfl⟩
  have hex : ∃ f ∈ exC6FS.files, pyIn jtPat f.name = true :=
    ⟨⟨markerName exJobConf3 0, []⟩, by decide, by decide⟩
  exact ⟨rfl, by decide, by decide, hwf, hex,
    find_jobID_timeout_redo exJobConf3 exC6FS exC6FS.files 3 rfl (by decide)
      (List.Perm.refl _) (by decide) hwf hex⟩

/-- Counterexample to claim C6 as stated: with the jobfile named
`counter`, the timeout markers `counter_timeout_<id>` are all present
after ids 0, 1, 2 were issued, yet `find_jobID` returns the sentinel
`Nsims = 3`: the scan on line 129 looks for the literal substring
`job_timeout` in filenames, which never occurs in markers derived from a
jobfile not named `job`. -/
theorem find_jobID_timeout_redo_counterexample :
    (hasFile cxTimFS (markerName cxTimConf 0) = true) ∧
    (hasFile cxTimFS (markerName cxTimConf 1) = true) ∧
    (hasFile cxTimFS (markerName cxTimConf 2) = true) ∧
    (find_jobID cxTimConf cxTimFS cxTimFS.files
      = some (cxTimConf.Nsims, cxTimFS)) := by
  refine ⟨by decide, by decide, by decide, by decide⟩

/-- Claim C5 as amended: once the counter has reached `Nsims`, if the only
file in the scan directory whose name contains the literal `error` is the
error artifact `<errorfile>_<k>.pickle` of some id `k < Nsims` (so the
errorfile stem must itself contain `error`, as the doctest's `./error`
does), then `find_jobID` returns `k` — never a merely timed-out id, no
matter which timeout markers are present — after recreating `k`'s timeout
marker and renaming the error artifact to `<jobfile>_redone_<k>.pickle`
with its payload preserved.  The three filename-distinctness hypotheses
exclude degenerate configurations in which the marker, artifact and
redone names collide. -/
theorem find_jobID_error_redo
    (d : JobConf) (fs : JobFS) (sh : List DirEntry) (c k : Nat)
    (payload : List Char)
    (hc : fs.counter = some c) (hge : d.Nsims ≤ c)
    (hperm : sh.Perm fs.files)
    (hkN : k < d.Nsims)
    (hmem : (⟨errName d k, payload⟩ : DirEntry) ∈ fs.files)
    (hmatch : pyIn errPat (errName d k) = true)
    (huniq : ∀ f ∈ fs.files, pyIn errPat f.name = true →
      f = ⟨errName d k, payload⟩)
    (hne1 : errName d k ≠ redoneName d k)
    (hne2 : markerName d k ≠ errName d k)
    (hne3 : markerName d k ≠ redoneName d k) :
    ∃ fs2, find_jobID d fs sh = some (k, fs2) ∧
      fs2.counter = fs.counter ∧
      hasFile fs2 (markerName d k) = true ∧
      (⟨redoneName d k, payload⟩ : DirEntry) ∈ fs2.files ∧
      hasFile fs2 (errName d k) = false := by
  have hscan : errScan sh = some ⟨errName d k, payload⟩ :=
    errScan_unique sh fs.files _ hperm hmem hmatch huniq
  have hT1 : (⟨errName d k, payload⟩ : DirEntry)
      ∈ (touch fs (markerName d k)).files := touch_mem_super hmem
  have hfind : (touch fs (markerName d k)).files.find?
      (fun f => f.name == errName d k) = some ⟨errName d k, payload⟩ := by
    have hsome : ((touch fs (markerName d k)).files.find?
        (fun f => f.name == errName d k)).isSome :=
      List.find?_isSome.mpr ⟨_, hT1, by simp⟩
    rcases Option.isSome_iff_exists.mp hsome with ⟨g, hg⟩
    have hgname : g.name = errName d k := by
      have h := List.find?_some hg
      simpa using h
    have hgmem : g ∈ (touch fs (markerName d k)).files :=
      List.mem_of_find?_eq_some hg
    rcases touch_mem_cases hgmem with hgf | hgm
    · have hgp : pyIn errPat g.name = true := by
        rw [hgname]
        exact hmatch
      rw [hg, huniq g hgf hgp]
    · exfalso
      apply hne2
      rw [← hgname, hgm]
  have hmove : pyMove (touch fs (markerName d k)) (errName d k)
      (redoneName d k)
      = some { touch fs (markerName d k) with files :=
          ((touch fs (markerName d k)).files.filter
            (fun f => !(f.name == errName d k || f.name == redoneName d k)))
            ++ [⟨redoneName d k, payload⟩] } := by
    unfold pyMove
    rw [hfind]
  refine ⟨{ touch fs (markerName d k) with files :=
      ((touch fs (markerName d k)).files.filter
        (fun f => !(f.name == errName d k || f.name == redoneName d k)))
        ++ [⟨redoneName d k, payload⟩] }, ?_, ?_, ?_, ?_, ?_⟩
  · simp [find_jobID, hc, hscan, parseJobID_errName, hkN,
      Nat.not_lt.mpr hge, hmove]
  · show (touch fs (markerName d k)).counter = fs.counter
    exact touch_counter fs (markerName d k)
  · have hmk : hasFile (touch fs (markerName d k)) (markerName d k) = true :=
      touch_hasFile_self fs (markerName d k)
    simp only [hasFile, List.any_eq_true] at hmk ⊢
    rcases hmk with ⟨e, he, hename⟩
    refine ⟨e, List.mem_append_left _ ?_, hename⟩
    refine List.mem_filter.mpr ⟨he, ?_⟩
    have hen : e.name = markerName d k := by simpa using hename
    simp [hen, hne2, hne3]
  · exact List.mem_append_right _ (List.mem_singleton.mpr rfl)
  · simp only [hasFile]
    rw [List.any_eq_false]
    intro e he hename
    have hen : e.name = errName d k := by simpa using hename
    rcases List.mem_append.mp he with he | he
    · have := (List.mem_filter.mp he).2
      rw [hen] at this
      simp [hne1] at this
    · rcases List.mem_cons.mp he with rfl | he
      · exact hne1 (by simpa using hen.symm)
      · cases he

/-- Witness for the amended C5 at a concrete input: errorfile stem
`error`, `Nsims = 2`, counter 2; the artifact `error_0.pickle` (payload
`p`) and the unrelated timeout marker `job_timeout_1` are present; the
call returns 0 and renames the artifact. -/
theorem find_jobID_error_redo_witness :
    (exC5FS.counter = some 2) ∧ (exJobConf.Nsims ≤ 2) ∧ (0 < exJobConf.Nsims) ∧
    ((⟨errName exJobConf 0, "p".toList⟩ : DirEntry) ∈ exC5FS.files) ∧
    (pyIn errPat (errName exJobConf 0) = true) ∧
    (∀ f ∈ exC5FS.files, pyIn errPat f.name = true →
      f = ⟨errName exJobConf 0, "p".toList⟩) ∧
    (errName exJobConf 0 ≠ redoneName exJobConf 0) ∧
    (markerName exJobConf 0 ≠ errName exJobConf 0) ∧
    (markerName exJobConf 0 ≠ redoneName exJobConf 0) ∧
    (∃ fs2, find_jobID exJobConf exC5FS exC5FS.files = some (0, fs2) ∧
      fs2.counter = exC5FS.counter ∧
      hasFile fs2 (markerName exJobConf 0) = true ∧
      (⟨redoneName exJobConf 0, "p".toList⟩ : DirEntry) ∈ fs2.files ∧
      hasFile fs2 (errName exJobConf 0) = false) :=
  ⟨rfl, by decide, by decide, by decide, by decide, by decide, by decide,
    by decide, by decide,
    find_jobID_error_redo exJobConf exC5FS exC5FS.files 2 0 "p".toList rfl
      (by decide) (List.Perm.refl _) (by decide) (by decide) (by decide)
      (by decide) (by decide) (by decide) (by decide)⟩

/-- Counterexample to claim C5 as stated: with the errorfile stem
`failures`, the error artifact `failures_0.pickle` for id 0 and the
timeout marker `job_timeout_1` for the other id are both present after
full issuance, yet `find_jobID` returns the merely timed-out id 1, not
the error-marked id 0: the scan on line 118 looks for the literal
substring `error` in filenames, which `failures_0.pickle` does not
contain. -/
theorem find_jobID_error_redo_counterexample :
    ((⟨errName cxErrConf 0, "p".toList⟩ : DirEntry) ∈ cxErrFS.files) ∧
    (hasFile cxErrFS (markerName cxErrConf 1) = true) ∧
    (cxErrFS.counter = some cxErrConf.Nsims) ∧
    ((find_jobID cxErrConf cxErrFS cxErrFS.files).map Prod.fst = some 1) ∧
    ((find_jobID cxErrConf cxErrFS cxErrFS.files).map Prod.fst ≠ some 0) := by
  refine ⟨by decide, by decide, rfl, by decide, by decide⟩
